import Mathlib

/-!
# PRA PnL Tracker — verification of the Bet Settlement & Live Progress Engine

Shallow embedding of the settlement, P&L, ledger and live-page logic of the
`pra-pnl-tracker` repository.  The browser-side view logic
(`app/static/live.js`, `app/static/chart.js`) is translated directly from the
JavaScript source.  The Python services (`result_updater.py`,
`pnl_calculator.py`, `db_sync.py`, `live_tracker.py`) are not part of the
source tree — only their tests and design documents are — so those components
are modelled from the specification, as noted on each definition.

Real-valued quantities (betting lines, PRA, minutes, units, money) are
embedded as rationals (`ℚ`).
-/

namespace PraPnl

/-- Bet direction, `direction ∈ {OVER, UNDER}` (spec §3). -/
inductive Direction
  | OVER
  | UNDER
deriving DecidableEq, Repr

/-- Settlement result, `result ∈ {PENDING, WON, LOST, VOIDED}` (spec §3). -/
inductive Result
  | PENDING
  | WON
  | LOST
  | VOIDED
deriving DecidableEq, Repr, BEq

/-- Modelled from the spec: the Settlement Classifier `determine_result` of
`app/services/result_updater.py` is missing from the source tree (only its
tests in the test-suite design document exercise it).  Rules of spec §4.1,
evaluated in order: null PRA → PENDING; minutes < 1 → VOIDED; OVER wins iff
`actual_pra > betting_line`; UNDER wins iff `actual_pra < betting_line`.
The spec leaves the corner where `actual_pra` is present but `actual_minutes`
is null unspecified; the model reads missing minutes as 0 (did-not-play). -/
def determine_result (direction : Direction) (betting_line : ℚ)
    (actual_pra : Option ℚ) (actual_minutes : Option ℚ) : Result :=
  match actual_pra with
  | none => .PENDING
  | some pra =>
    if actual_minutes.getD 0 < 1 then .VOIDED
    else
      match direction with
      | .OVER => if pra > betting_line then .WON else .LOST
      | .UNDER => if pra < betting_line then .WON else .LOST

/-- Modelled from the spec: fixed payout ratio `r` derived from assumed -110
American odds, `r = 100/110 = 10/11 ≈ 0.9091` (spec §4.2). -/
def payoutRatio : ℚ := 10 / 11

/-- Modelled from the spec: the P&L Calculator `calculate_pnl` of
`app/services/pnl_calculator.py` is missing from the source tree (only its
tests exercise it).  Spec §4.2: WON → `+units * r`, LOST → `-units`,
VOIDED → `0`.  The spec restricts the domain to settled results; a PENDING
bet has no P&L effect, so it is mapped to 0. -/
def calculate_pnl (result : Result) (units : ℚ) : ℚ :=
  match result with
  | .WON => units * payoutRatio
  | .LOST => -units
  | .VOIDED => 0
  | .PENDING => 0

/-! ## Live-status taxonomy and the display mapping (`app/static/live.js`) -/

/-- The UI entry produced by `getStatusInfo` in `app/static/live.js`:
`{ text, class, valueClass }`. -/
structure StatusInfo where
  text : String
  cssClass : String
  valueClass : String
deriving DecidableEq, Repr

/-- The ten live statuses of the spec's taxonomy (spec §2, §4.3). -/
def liveStatusNames : List String :=
  ["hit", "on_track", "safe", "needs_more", "close", "unlikely", "busted",
   "danger", "miss", "not_started"]

/-- The `statusMap` object literal inside `getStatusInfo`
(`app/static/live.js` lines 262-273); `none` models a key miss. -/
def statusMap (s : String) : Option StatusInfo :=
  if s = "hit" then some ⟨"HIT", "hit", "text-hit"⟩
  else if s = "on_track" then some ⟨"ON TRACK", "on-track", "text-on-track"⟩
  else if s = "safe" then some ⟨"SAFE", "safe", "text-safe"⟩
  else if s = "needs_more" then some ⟨"NEEDS MORE", "warning", "text-warning"⟩
  else if s = "close" then some ⟨"CLOSE", "warning", "text-warning"⟩
  else if s = "unlikely" then some ⟨"UNLIKELY", "danger", "text-danger"⟩
  else if s = "busted" then some ⟨"BUSTED", "danger", "text-danger"⟩
  else if s = "danger" then some ⟨"DANGER", "danger", "text-danger"⟩
  else if s = "miss" then some ⟨"MISS", "danger", "text-danger"⟩
  else if s = "not_started" then some ⟨"PENDING", "pending", ""⟩
  else none

/-- ASCII upper-casing of one character, as JavaScript's `toUpperCase`
behaves on the ASCII status strings this page handles. -/
def asciiUpper (c : Char) : Char :=
  if 97 ≤ c.toNat ∧ c.toNat ≤ 122 then Char.ofNat (c.toNat - 32) else c

/-- JavaScript's `String.prototype.toUpperCase` restricted to ASCII input. -/
def jsToUpperCase (s : String) : String := ⟨s.data.map asciiUpper⟩

/-- `getStatusInfo` (`app/static/live.js` lines 260-275):
`statusMap[status] || { text: status?.toUpperCase() || 'UNKNOWN',
class: 'pending', valueClass: '' }`.  A missing (`none`) or unrecognized
status falls through to the default object; an empty uppercased string is
falsy in JavaScript, hence `"UNKNOWN"`. -/
def getStatusInfo (status : Option String) : StatusInfo :=
  match status.bind statusMap with
  | some info => info
  | none =>
    { text :=
        match status with
        | none => "UNKNOWN"
        | some s => if jsToUpperCase s = "" then "UNKNOWN" else jsToUpperCase s
      cssClass := "pending"
      valueClass := "" }

/-! ## Live Progress Classifier (modelled from the spec, §4.3) -/

/-- Game status of a `GameSnapshot` (spec §3). -/
inductive GameStatus
  | NotStarted
  | Live
  | Finished
deriving DecidableEq, Repr

/-- The closed live-status taxonomy as a variant type (spec §2, §4.3). -/
inductive LiveStatus
  | hit
  | on_track
  | safe
  | needs_more
  | close
  | unlikely
  | busted
  | danger
  | miss
  | not_started
deriving DecidableEq, Repr

/-- An in-progress snapshot of one player's game (spec §3 `GameSnapshot`,
restricted to one player). -/
structure Snapshot where
  gameStatus : GameStatus
  currentPra : ℚ
  minutesPlayed : ℚ
  period : ℕ
  clockRemaining : ℚ
deriving DecidableEq, Repr

/-- The WON condition of spec §4.1.3/4.1.4: OVER wins iff the PRA exceeds
the line, UNDER wins iff it is below the line. -/
def wonCondition (direction : Direction) (line pra : ℚ) : Bool :=
  match direction with
  | .OVER => line < pra
  | .UNDER => pra < line

/-- Modelled from the spec: the Live Progress Classifier of
`app/services/live_tracker.py` is missing from the source tree.  Spec §4.3
fixes steps 1-2 (not-started short-circuit, then the `hit` short-circuit on
the WON condition regardless of time remaining); steps 3-5 classify by pace
projection against policy thresholds which the spec deliberately leaves as
unspecified named constants, so that part is taken as the parameter
`rest`. -/
def classify_live (rest : Direction → ℚ → Snapshot → LiveStatus)
    (direction : Direction) (line : ℚ) (s : Snapshot) : LiveStatus :=
  if s.gameStatus = .NotStarted then .not_started
  else if wonCondition direction line s.currentPra then .hit
  else rest direction line s

/-! ## Bankroll Ledger (modelled from the spec, §4.4; starting bankroll from
`app/static/chart.js` line 19) -/

/-- `STARTING_BANKROLL` constant (`app/static/chart.js` line 19). -/
def STARTING_BANKROLL : ℚ := 100

/-- A bet as fed to the ledger rebuild: game date (encoded as a day number),
settlement result and stake (`tier_units`), the fields of the `bets` table
the ledger aggregation reads. -/
structure SBet where
  game_date : ℕ
  result : Result
  tier_units : ℚ
deriving DecidableEq, Repr

/-- One calendar date's aggregate, the `daily_summary` row (spec §3). -/
structure DailySummary where
  date : ℕ
  total_bets : ℕ
  wins : ℕ
  losses : ℕ
  pending : ℕ
  bankroll : ℚ
  daily_pnl : ℚ
deriving DecidableEq, Repr

/-- Modelled from the spec: one day's aggregate of the ledger rebuild
(`app/services/db_sync.py` is missing from the source tree).  Counts and the
P&L sum range over that date's bets; the day's bankroll is the prior running
bankroll plus the day's P&L (spec §3, §4.4). -/
def mkSummary (bets : List SBet) (d : ℕ) (prior : ℚ) : DailySummary :=
  let todays := bets.filter (fun b => b.game_date == d)
  let pnl := (todays.map (fun b => calculate_pnl b.result b.tier_units)).sum
  { date := d
    total_bets := todays.length
    wins := (todays.filter (fun b => b.result == .WON)).length
    losses := (todays.filter (fun b => b.result == .LOST)).length
    pending := (todays.filter (fun b => b.result == .PENDING)).length
    bankroll := prior + pnl
    daily_pnl := pnl }

/-- The distinct game dates of a bet list, ascending. -/
def ledgerDates (bets : List SBet) : List ℕ :=
  ((bets.map SBet.game_date).dedup).insertionSort (· ≤ ·)

/-- Fold one day's summary after another, carrying the running bankroll. -/
def ledgerFrom (bets : List SBet) (prior : ℚ) : List ℕ → List DailySummary
  | [] => []
  | d :: ds =>
    let s := mkSummary bets d prior
    s :: ledgerFrom bets s.bankroll ds

/-- Modelled from the spec: `rebuild_ledger` (spec §4.4, §6) recomputes the
`DailySummary` series from the full set of bets, one summary per distinct
date in ascending order, starting the running bankroll at the fixed
constant. -/
def rebuild_ledger (bets : List SBet) : List DailySummary :=
  ledgerFrom bets STARTING_BANKROLL (ledgerDates bets)

/-! ## Live page results table and grouping (`app/static/live.js`) -/

/-- A bet object of the `/api/live-bets` payload, restricted to the fields
`live.js` reads in `groupBetsByGame` and `renderResultsTable`. -/
structure LiveBet where
  game : Option String
  status : Option String
  game_status : Option String
  current_pra : Option ℚ
deriving DecidableEq, Repr

/-- A game object of the `/api/live-bets` payload (its `game` field is the
matchup string used as grouping key). -/
structure GameInfo where
  game : String
  status : Option String
deriving DecidableEq, Repr

/-- The grouping key computed inside the `bets.forEach` of `groupBetsByGame`
(`app/static/live.js` line 117):
`bet.game && bet.game !== '-' ? bet.game : 'Unmatched'`; a missing or empty
`game` is falsy. -/
def jsGameKey (b : LiveBet) : String :=
  match b.game with
  | none => "Unmatched"
  | some g => if g = "" ∨ g = "-" then "Unmatched" else g

/-- Append a bet to the group carrying the given key. -/
def pushToGroup (grouped : List (String × List LiveBet)) (k : String)
    (b : LiveBet) : List (String × List LiveBet) :=
  grouped.map (fun p => if p.1 = k then (p.1, p.2 ++ [b]) else p)

/-- One step of the `games.forEach` initialisation of `groupBetsByGame`
(`app/static/live.js` lines 101-107).  JavaScript object keys are unique;
re-assigning an existing key overwrites its (still empty) group, which
coincides with keeping the first occurrence. -/
def addGameKey (acc : List (String × List LiveBet)) (g : GameInfo) :
    List (String × List LiveBet) :=
  if acc.any (fun p => p.1 == g.game) then acc
  else acc ++ [(g.game, ([] : List LiveBet))]

/-- The initial `grouped` object of `groupBetsByGame`
(`app/static/live.js` lines 98-113): one (empty) group per game key, plus an
`'Unmatched'` group. -/
def initGroups (games : List GameInfo) : List (String × List LiveBet) :=
  let base := games.foldl addGameKey []
  if base.any (fun p => p.1 == "Unmatched") then base
  else base ++ [("Unmatched", [])]

/-- One step of the `bets.forEach` of `groupBetsByGame`
(`app/static/live.js` lines 116-123): the bet is pushed onto the group of
its key when that key exists in `grouped`, otherwise onto `'Unmatched'`. -/
def groupStep (acc : List (String × List LiveBet)) (b : LiveBet) :
    List (String × List LiveBet) :=
  let key := jsGameKey b
  if acc.any (fun p => p.1 = key) then pushToGroup acc key b
  else pushToGroup acc "Unmatched" b

/-- `groupBetsByGame` (`app/static/live.js` lines 97-126). -/
def groupBetsByGame (bets : List LiveBet) (games : List GameInfo) :
    List (String × List LiveBet) :=
  bets.foldl groupStep (initGroups games)

/-- The key a bet ends up under, relative to the key set of the grouped
object: the bet's own key when that key is present, else `'Unmatched'`. -/
def assignKey (keys : List String) (b : LiveBet) : String :=
  if jsGameKey b ∈ keys then jsGameKey b else "Unmatched"

/-- One decimal place, mirroring JavaScript's `Number.prototype.toFixed(1)`
on the non-negative values the win-rate computation produces. -/
def toFixed1 (q : ℚ) : String :=
  let n : ℤ := round (q * 10)
  toString (n / 10) ++ "." ++ toString (n % 10)

/-- The data computed by `renderResultsTable`
(`app/static/live.js` lines 286-295) before it is formatted into HTML:
hit/miss/voided bucket sizes, the settled count and the win-rate string.
The voided bucket concatenates the not-started filter with the
unsettled-without-PRA filter exactly as the source does. -/
structure ResultsView where
  hits : ℕ
  misses : ℕ
  voided : ℕ
  settled : ℕ
  winRate : String
deriving DecidableEq, Repr

/-- `renderResultsTable`'s grouping and win-rate logic
(`app/static/live.js` lines 286-295):
`hits = bets.filter(b => b.status === 'hit')`,
`misses = bets.filter(b => b.status === 'miss')`,
`voided = bets.filter(not started).concat(bets.filter(unsettled && pra null))`,
`settled = hits.length + misses.length`,
`winRate = settled > 0 ? ((hits.length / settled) * 100).toFixed(1) : '0.0'`. -/
def renderResultsTable (bets : List LiveBet) : ResultsView :=
  let hits := bets.filter (fun b => b.status == some "hit")
  let misses := bets.filter (fun b => b.status == some "miss")
  let voided :=
    bets.filter (fun b =>
        b.status == some "not_started" || b.game_status == some "Not Started")
      ++ bets.filter (fun b =>
        !(b.status == some "hit" || b.status == some "miss")
          && b.current_pra == none)
  let settled := hits.length + misses.length
  { hits := hits.length
    misses := misses.length
    voided := voided.length
    settled := settled
    winRate :=
      if settled > 0 then toFixed1 ((hits.length : ℚ) / settled * 100)
      else "0.0" }

/-! ## Dashboard period statistics (`app/static/chart.js`) -/

/-- One element of the `/api/daily-pnl` payload as `chart.js` reads it:
`{ date, wins, losses, pnl }`, date possibly null (the synthetic start
point). -/
structure DayPnl where
  date : Option ℕ
  wins : ℕ
  losses : ℕ
  pnl : ℚ
deriving DecidableEq, Repr

/-- The period filter selector of the dashboard. -/
inductive Period
  | week
  | month
  | all
deriving DecidableEq, Repr

/-- `filterByPeriod` (`app/static/chart.js` lines 41-50) on the daily-P&L
data: for `'all'` the data is returned unchanged; otherwise entries with a
null date are dropped and the rest are kept when they fall in the period's
date range.  The range test (`getDateRange`, which depends on the current
wall-clock date) is abstracted as the predicate `inRange`. -/
def filterByPeriod (inRange : ℕ → Bool) (period : Period)
    (data : List DayPnl) : List DayPnl :=
  match period with
  | .all => data
  | _ =>
    data.filter (fun d =>
      match d.date with
      | none => false
      | some t => inRange t)

/-- The record returned by `calculatePeriodStats`. -/
structure PeriodStats where
  wins : ℕ
  losses : ℕ
  total : ℕ
  winRate : ℚ
  totalPnl : ℚ
deriving DecidableEq, Repr

/-- `calculatePeriodStats` (`app/static/chart.js` lines 53-70): sums wins,
losses and P&L over the filtered days, then
`winRate = total > 0 ? (wins / total * 100) : 0` with
`total = wins + losses`. -/
def calculatePeriodStats (inRange : ℕ → Bool) (dailyPnl : List DayPnl)
    (period : Period) : PeriodStats :=
  let filtered := filterByPeriod inRange period dailyPnl
  let wins := (filtered.map DayPnl.wins).sum
  let losses := (filtered.map DayPnl.losses).sum
  let totalPnl := (filtered.map DayPnl.pnl).sum
  let total := wins + losses
  { wins := wins
    losses := losses
    total := total
    winRate := if total > 0 then (wins : ℚ) / (total : ℚ) * 100 else 0
    totalPnl := totalPnl }

/-! ## Theorems -/

/-- C1: `settle` returns PENDING iff `actual_pra` is null; otherwise VOIDED
iff `actual_minutes < 1`; otherwise OVER wins iff `actual_pra >
betting_line` (else LOST) and UNDER wins iff `actual_pra < betting_line`
(else LOST), the rules evaluated in this order.  Stated over observations
with minutes present whenever the PRA is present, the only corner the spec
defines. -/
theorem settle_rules (d : Direction) (line p m : ℚ) :
    (∀ mo : Option ℚ, determine_result d line none mo = .PENDING) ∧
    determine_result d line (some p) (some m) ≠ .PENDING ∧
    (determine_result d line (some p) (some m) = .VOIDED ↔ m < 1) ∧
    (1 ≤ m →
      (determine_result .OVER line (some p) (some m) = .WON ↔ line < p) ∧
      (determine_result .OVER line (some p) (some m) = .LOST ↔ ¬line < p) ∧
      (determine_result .UNDER line (some p) (some m) = .WON ↔ p < line) ∧
      (determine_result .UNDER line (some p) (some m) = .LOST ↔ ¬p < line)) := by
  refine ⟨fun mo => rfl, ?_, ?_, ?_⟩
  · cases d <;> unfold determine_result <;> simp only [Option.getD_some] <;>
      by_cases h1 : m < 1 <;> by_cases h2 : p > line <;> by_cases h3 : p < line <;>
      simp [h1, h2, h3]
  · cases d <;> unfold determine_result <;> simp only [Option.getD_some] <;>
      by_cases h1 : m < 1 <;> by_cases h2 : p > line <;> by_cases h3 : p < line <;>
      simp [h1, h2, h3]
  · intro hm
    have hnot : ¬m < 1 := not_lt.mpr hm
    refine ⟨?_, ?_, ?_, ?_⟩ <;> unfold determine_result <;>
      simp only [Option.getD_some, if_neg hnot] <;>
      by_cases h2 : p > line <;> by_cases h3 : p < line <;> simp [h2, h3]

/-- Witness for C1 at the spec's own example `settle(OVER, 34, 41, 36) = WON`
(integer-valued observation). -/
theorem settle_rules_witness :
    determine_result .OVER 34 none none = .PENDING ∧
    (1 ≤ (36 : ℚ) →
      (determine_result .OVER 34 (some 41) (some 36) = .WON ↔ (34 : ℚ) < 41)) ∧
    (1 ≤ (36 : ℚ)) ∧ (34 : ℚ) < 41 := by
  have h := settle_rules .OVER 34 41 36
  exact ⟨h.1 none, fun hm => (h.2.2.2 hm).1, by decide, by decide⟩

/-- C2: for positive stakes, `pnl(WON, units) = units * r` with the fixed
payout ratio `r = 10/11 ≈ 0.9091` (so `pnl(WON, 1) ≈ 0.909` and
`pnl(WON, 1.5) ≈ 1.364`), `pnl(LOST, units) = -units`, and
`pnl(VOIDED, units) = 0` for every units. -/
theorem pnl_rules (units : ℚ) (h : 0 < units) :
    calculate_pnl .WON units = units * payoutRatio ∧
    |payoutRatio - 9091 / 10000| < 1 / 10000 ∧
    |calculate_pnl .WON 1 - 909 / 1000| < 1 / 1000 ∧
    |calculate_pnl .WON (3 / 2) - 1364 / 1000| < 1 / 1000 ∧
    calculate_pnl .LOST units = -units ∧
    ∀ u : ℚ, calculate_pnl .VOIDED u = 0 := by
  refine ⟨rfl, ?_, ?_, ?_, rfl, fun u => rfl⟩ <;>
    norm_num [calculate_pnl, payoutRatio, abs_lt]

/-- Witness for C2 at `units = 1`. -/
theorem pnl_rules_witness :
    (0 : ℚ) < 1 ∧
    (calculate_pnl .WON 1 = 1 * payoutRatio ∧
      |payoutRatio - 9091 / 10000| < 1 / 10000 ∧
      |calculate_pnl .WON 1 - 909 / 1000| < 1 / 1000 ∧
      |calculate_pnl .WON (3 / 2) - 1364 / 1000| < 1 / 1000 ∧
      calculate_pnl .LOST 1 = -1 ∧
      ∀ u : ℚ, calculate_pnl .VOIDED u = 0) :=
  ⟨by decide, pnl_rules 1 (by decide)⟩

/-- C4: with at least one minute played, an actual PRA exactly equal to the
betting line settles as LOST for both directions — never VOIDED, never a
push/refund outcome. -/
theorem push_is_lost (d : Direction) (line m : ℚ) (h : 1 ≤ m) :
    determine_result d line (some line) (some m) = .LOST := by
  have hnot : ¬m < 1 := not_lt.mpr h
  cases d <;> simp [determine_result, hnot]

/-- Witness for C4 at `OVER`, line 25, minutes 30. -/
theorem push_is_lost_witness :
    (1 : ℚ) ≤ 30 ∧ determine_result .OVER 25 (some 25) (some 30) = .LOST :=
  ⟨by decide, push_is_lost .OVER 25 30 (by decide)⟩

/-- C7: the live classifier is monotonic for OVER bets once `hit` is
reached.  For two snapshots of the same game — the later one has started
(games never revert to not-started) and its cumulative PRA is at least the
earlier one's — if the earlier snapshot classifies as `hit` then the later
snapshot classifies as `hit` under any threshold policy `rest'`, provided
the threshold stage itself never awards `hit` (spec §4.3 steps 4-5 assign
only the non-hit buckets). -/
theorem hit_monotonic (rest rest' : Direction → ℚ → Snapshot → LiveStatus)
    (line : ℚ) (s1 s2 : Snapshot)
    (hrest : ∀ d l s, rest d l s ≠ .hit)
    (h1 : classify_live rest .OVER line s1 = .hit)
    (hgs : s2.gameStatus ≠ .NotStarted)
    (hpra : s1.currentPra ≤ s2.currentPra) :
    classify_live rest' .OVER line s2 = .hit := by
  unfold classify_live at h1 ⊢
  by_cases hg1 : s1.gameStatus = .NotStarted
  · simp [hg1] at h1
  · rw [if_neg hg1] at h1
    by_cases hw : wonCondition .OVER line s1.currentPra
    · have hlt : line < s1.currentPra := by
        simpa [wonCondition, decide_eq_true_eq] using hw
      have hw2 : wonCondition .OVER line s2.currentPra := by
        simp only [wonCondition, decide_eq_true_eq]
        exact lt_of_lt_of_le hlt hpra
      rw [if_neg hgs, if_pos hw2]
    · rw [if_neg hw] at h1
      exact absurd h1 (hrest .OVER line s1)

/-- Witness for C7: a hit at `30 > 25` in a live game stays a hit at the
final snapshot with `35` PRA. -/
theorem hit_monotonic_witness :
    ((∀ d l s, (fun (_ : Direction) (_ : ℚ) (_ : Snapshot) => LiveStatus.busted) d l s ≠ .hit) ∧
      classify_live (fun _ _ _ => .busted) .OVER 25 ⟨.Live, 30, 20, 3, 5⟩ = .hit ∧
      (⟨.Finished, 35, 30, 4, 0⟩ : Snapshot).gameStatus ≠ .NotStarted ∧
      ((⟨.Live, 30, 20, 3, 5⟩ : Snapshot).currentPra ≤ (⟨.Finished, 35, 30, 4, 0⟩ : Snapshot).currentPra)) ∧
    classify_live (fun _ _ _ => .busted) .OVER 25 ⟨.Finished, 35, 30, 4, 0⟩ = .hit := by
  have hr : ∀ (d : Direction) (l : ℚ) (s : Snapshot),
      (fun (_ : Direction) (_ : ℚ) (_ : Snapshot) => LiveStatus.busted) d l s
        ≠ .hit := fun _ _ _ h => LiveStatus.noConfusion h
  refine ⟨⟨hr, by decide, by decide, by decide⟩, ?_⟩
  exact hit_monotonic (fun _ _ _ => .busted) (fun _ _ _ => .busted) 25
    ⟨.Live, 30, 20, 3, 5⟩ ⟨.Finished, 35, 30, 4, 0⟩
    hr (by decide) (by decide) (by decide)

/-- C5 counterexample: the status string `"warmup"` is outside the ten-status
taxonomy, yet `getStatusInfo` silently falls through to the default UI
object — uppercased text with the generic `pending` styling, the same CSS
class a `not_started` bet shows. -/
theorem status_fallthrough_counterexample :
    "warmup" ∉ liveStatusNames ∧
    getStatusInfo (some "warmup") = ⟨"WARMUP", "pending", ""⟩ ∧
    (getStatusInfo (some "warmup")).cssClass
      = (getStatusInfo (some "not_started")).cssClass := by
  refine ⟨by decide, rfl, rfl⟩

/-- C5 amended: each of the ten statuses has a dedicated entry in
`getStatusInfo`'s map, but the mapping is not closed — a status outside the
set falls through to a default UI object (text the uppercased status, or
`"UNKNOWN"` when the status is missing or empty, with the generic `pending`
class) rather than being rejected. -/
theorem status_taxonomy (s t : String)
    (hs : s ∈ liveStatusNames) (ht : t ∉ liveStatusNames) :
    (∃ i, statusMap s = some i ∧ getStatusInfo (some s) = i) ∧
    statusMap t = none ∧
    getStatusInfo (some t)
      = ⟨if jsToUpperCase t = "" then "UNKNOWN" else jsToUpperCase t,
          "pending", ""⟩ ∧
    getStatusInfo none = ⟨"UNKNOWN", "pending", ""⟩ := by
  have hmap : statusMap t = none := by
    simp only [liveStatusNames, List.mem_cons, List.not_mem_nil, or_false] at ht
    push_neg at ht
    obtain ⟨h1, h2, h3, h4, h5, h6, h7, h8, h9, h10⟩ := ht
    simp [statusMap, h1, h2, h3, h4, h5, h6, h7, h8, h9, h10]
  refine ⟨?_, hmap, ?_, rfl⟩
  · simp only [liveStatusNames, List.mem_cons, List.not_mem_nil, or_false] at hs
    rcases hs with rfl | rfl | rfl | rfl | rfl | rfl | rfl | rfl | rfl | rfl <;>
      exact ⟨_, rfl, rfl⟩
  · simp [getStatusInfo, hmap]

/-- Witness for C5's amended theorem at `s = "hit"`, `t = "warmup"`. -/
theorem status_taxonomy_witness :
    ("hit" ∈ liveStatusNames ∧ "warmup" ∉ liveStatusNames) ∧
    ((∃ i, statusMap "hit" = some i ∧ getStatusInfo (some "hit") = i) ∧
      statusMap "warmup" = none ∧
      getStatusInfo (some "warmup")
        = ⟨if jsToUpperCase "warmup" = "" then "UNKNOWN"
            else jsToUpperCase "warmup", "pending", ""⟩ ∧
      getStatusInfo none = ⟨"UNKNOWN", "pending", ""⟩) :=
  ⟨⟨by decide, by decide⟩, status_taxonomy "hit" "warmup" (by decide) (by decide)⟩

/-- C10: the win-rate divisions are guarded against zero denominators: a
results view with no settled (hit or miss) bets shows the win-rate string
`"0.0"`, and period stats with no wins and no losses report `winRate = 0`. -/
theorem zero_denominator_guard (bets : List LiveBet) (inRange : ℕ → Bool)
    (period : Period) (data : List DayPnl)
    (h1 : (renderResultsTable bets).settled = 0)
    (h2 : (calculatePeriodStats inRange data period).total = 0) :
    (renderResultsTable bets).winRate = "0.0" ∧
    (calculatePeriodStats inRange data period).winRate = 0 := by
  constructor
  · simp only [renderResultsTable] at h1 ⊢
    rw [if_neg (by omega)]
  · simp only [calculatePeriodStats] at h2 ⊢
    rw [if_neg (by omega)]

/-- Witness for C10 at empty inputs. -/
theorem zero_denominator_guard_witness :
    ((renderResultsTable []).settled = 0 ∧
      (calculatePeriodStats (fun _ => true) [] .all).total = 0) ∧
    (renderResultsTable []).winRate = "0.0" ∧
    (calculatePeriodStats (fun _ => true) [] .all).winRate = 0 :=
  ⟨⟨rfl, rfl⟩, zero_denominator_guard [] (fun _ => true) .all [] rfl rfl⟩

/-- The day's bankroll is the prior running bankroll plus the day's P&L. -/
theorem mkSummary_bankroll (bets : List SBet) (d : ℕ) (prior : ℚ) :
    (mkSummary bets d prior).bankroll
      = prior + (mkSummary bets d prior).daily_pnl := rfl

/-- Each ledger entry's bankroll is the carried-in bankroll plus the sum of
the daily P&L of all entries up to and including it. -/
theorem ledgerFrom_get_bankroll (bets : List SBet) (prior : ℚ) (ds : List ℕ)
    (n : ℕ) (h : n < (ledgerFrom bets prior ds).length) :
    ((ledgerFrom bets prior ds).get ⟨n, h⟩).bankroll
      = prior
        + (((ledgerFrom bets prior ds).take (n + 1)).map
            DailySummary.daily_pnl).sum := by
  induction ds generalizing prior n with
  | nil => simp [ledgerFrom] at h
  | cons d ds ih =>
    cases n with
    | zero =>
      simp [ledgerFrom, mkSummary_bankroll]
    | succ n =>
      have h' : n < (ledgerFrom bets (mkSummary bets d prior).bankroll ds).length := by
        simpa [ledgerFrom] using h
      simp only [ledgerFrom, List.get_cons_succ, List.take_succ_cons,
        List.map_cons, List.sum_cons]
      rw [ih _ _ h', mkSummary_bankroll]
      ring

/-- Taking one element and summing a mapped value is that value at the
head. -/
theorem take_one_map_sum {α β : Type} [AddCommMonoid β] (l : List α)
    (h : 0 < l.length) (f : α → β) :
    ((l.take 1).map f).sum = f (l.get ⟨0, h⟩) := by
  cases l with
  | nil => simp at h
  | cons a t => simp

/-- C3: in the `DailySummary` series produced by `rebuild_ledger`, each
entry's bankroll equals the starting bankroll constant (100) plus the sum of
`daily_pnl` over all entries up to and including it; equivalently each
entry's bankroll is the previous entry's bankroll plus its own `daily_pnl`,
with the first entry's prior bankroll equal to the starting constant. -/
theorem bankroll_invariant (bets : List SBet) (n : ℕ)
    (h : n < (rebuild_ledger bets).length) :
    ((rebuild_ledger bets).get ⟨n, h⟩).bankroll
      = STARTING_BANKROLL
        + (((rebuild_ledger bets).take (n + 1)).map
            DailySummary.daily_pnl).sum ∧
    (n = 0 → ((rebuild_ledger bets).get ⟨n, h⟩).bankroll
      = STARTING_BANKROLL + ((rebuild_ledger bets).get ⟨n, h⟩).daily_pnl) ∧
    ∀ h' : n + 1 < (rebuild_ledger bets).length,
      ((rebuild_ledger bets).get ⟨n + 1, h'⟩).bankroll
        = ((rebuild_ledger bets).get ⟨n, h⟩).bankroll
          + ((rebuild_ledger bets).get ⟨n + 1, h'⟩).daily_pnl := by
  unfold rebuild_ledger at h ⊢
  refine ⟨ledgerFrom_get_bankroll bets STARTING_BANKROLL (ledgerDates bets) n h,
    ?_, ?_⟩
  · intro hn
    subst hn
    rw [ledgerFrom_get_bankroll bets STARTING_BANKROLL (ledgerDates bets) 0 h,
      take_one_map_sum _ h]
  · intro h'
    rw [ledgerFrom_get_bankroll bets STARTING_BANKROLL (ledgerDates bets) n h,
      ledgerFrom_get_bankroll bets STARTING_BANKROLL (ledgerDates bets) (n + 1) h']
    have hm : n + 1 < ((ledgerFrom bets STARTING_BANKROLL
        (ledgerDates bets)).map DailySummary.daily_pnl).length := by
      simpa using h'
    rw [List.map_take, List.map_take, List.sum_take_succ _ (n + 1) hm]
    have hidx : ((ledgerFrom bets STARTING_BANKROLL
          (ledgerDates bets)).map DailySummary.daily_pnl)[n + 1]
        = ((ledgerFrom bets STARTING_BANKROLL
            (ledgerDates bets)).get ⟨n + 1, h'⟩).daily_pnl := by
      simp
    rw [hidx]
    ring

/-- Witness for C3 on a one-bet ledger. -/
theorem bankroll_invariant_witness :
    0 < (rebuild_ledger [⟨7, .WON, 1⟩]).length ∧
    ((rebuild_ledger [⟨7, .WON, 1⟩]).get
        ⟨0, by decide⟩).bankroll
      = STARTING_BANKROLL
        + (((rebuild_ledger [⟨7, .WON, 1⟩]).take 1).map
            DailySummary.daily_pnl).sum :=
  ⟨by decide, (bankroll_invariant [⟨7, .WON, 1⟩] 0 (by decide)).1⟩

/-- A day summary depends only on the multiset of bets: permuting the bet
list leaves every aggregate unchanged. -/
theorem mkSummary_perm {b1 b2 : List SBet} (hp : b1.Perm b2) (d : ℕ)
    (prior : ℚ) : mkSummary b1 d prior = mkSummary b2 d prior := by
  have hf : (b1.filter (fun b => b.game_date == d)).Perm
      (b2.filter (fun b => b.game_date == d)) := hp.filter _
  simp only [mkSummary]
  rw [hf.length_eq,
    (hf.filter (fun b => b.result == Result.WON)).length_eq,
    (hf.filter (fun b => b.result == Result.LOST)).length_eq,
    (hf.filter (fun b => b.result == Result.PENDING)).length_eq,
    (hf.map (fun b => calculate_pnl b.result b.tier_units)).sum_eq]

/-- The sorted distinct dates depend only on the multiset of bets. -/
theorem ledgerDates_perm {b1 b2 : List SBet} (hp : b1.Perm b2) :
    ledgerDates b1 = ledgerDates b2 := by
  unfold ledgerDates
  refine List.eq_of_perm_of_sorted ?_ (List.sorted_insertionSort _ _)
    (List.sorted_insertionSort _ _)
  exact (List.perm_insertionSort _ _).trans
    (((hp.map _).dedup).trans (List.perm_insertionSort _ _).symm)

/-- Folding the ledger is a congruence in the per-day summaries. -/
theorem ledgerFrom_congr {b1 b2 : List SBet}
    (hmk : ∀ d prior, mkSummary b1 d prior = mkSummary b2 d prior)
    (prior : ℚ) (ds : List ℕ) :
    ledgerFrom b1 prior ds = ledgerFrom b2 prior ds := by
  induction ds generalizing prior with
  | nil => rfl
  | cons d ds ih =>
    simp only [ledgerFrom]
    rw [hmk d prior, ih]

/-- C8: `rebuild_ledger` is deterministic and idempotent — as a pure
function it returns identical output on identical input — and its output
depends only on the per-date multiset of bets: any permutation of the bet
list (in particular any reordering within a date) rebuilds the identical
`DailySummary` sequence. -/
theorem rebuild_ledger_perm (b1 b2 : List SBet) (hp : b1.Perm b2) :
    rebuild_ledger b1 = rebuild_ledger b2 := by
  unfold rebuild_ledger
  rw [ledgerDates_perm hp]
  exact ledgerFrom_congr (fun d prior => mkSummary_perm hp d prior) _ _

/-- Witness for C8: two same-date bets swapped rebuild identically. -/
theorem rebuild_ledger_perm_witness :
    ([⟨3, .WON, 1⟩, ⟨3, .LOST, 1⟩] : List SBet).Perm
      [⟨3, .LOST, 1⟩, ⟨3, .WON, 1⟩] ∧
    rebuild_ledger [⟨3, .WON, 1⟩, ⟨3, .LOST, 1⟩]
      = rebuild_ledger [⟨3, .LOST, 1⟩, ⟨3, .WON, 1⟩] :=
  ⟨by decide, rebuild_ledger_perm _ _ (by decide)⟩

/-- C6: VOIDED bets contribute to neither the wins count, nor the losses
count, nor the daily P&L of a day's summary; and the win rates are computed
over settled non-voided bets only — adding a bet that is neither a hit nor a
miss leaves the results-table win rate unchanged, and the period win rate is
wins divided by (wins + losses). -/
theorem voided_neutral (bets : List SBet) (d : ℕ) (prior : ℚ) (v : SBet)
    (hv : v.result = .VOIDED)
    (b : LiveBet) (lbets : List LiveBet)
    (hb1 : b.status ≠ some "hit") (hb2 : b.status ≠ some "miss")
    (inRange : ℕ → Bool) (data : List DayPnl) (period : Period)
    (hpos : 0 < (calculatePeriodStats inRange data period).total) :
    (mkSummary (v :: bets) d prior).wins = (mkSummary bets d prior).wins ∧
    (mkSummary (v :: bets) d prior).losses = (mkSummary bets d prior).losses ∧
    (mkSummary (v :: bets) d prior).daily_pnl
      = (mkSummary bets d prior).daily_pnl ∧
    (renderResultsTable (b :: lbets)).hits = (renderResultsTable lbets).hits ∧
    (renderResultsTable (b :: lbets)).misses
      = (renderResultsTable lbets).misses ∧
    (renderResultsTable (b :: lbets)).settled
      = (renderResultsTable lbets).settled ∧
    (renderResultsTable (b :: lbets)).winRate
      = (renderResultsTable lbets).winRate ∧
    (calculatePeriodStats inRange data period).winRate
      = ((calculatePeriodStats inRange data period).wins : ℚ)
        / (((calculatePeriodStats inRange data period).wins : ℚ)
            + ((calculatePeriodStats inRange data period).losses : ℚ)) * 100 := by
  have hbs1 : (b.status == some "hit") = false := by
    simpa using hb1
  have hbs2 : (b.status == some "miss") = false := by
    simpa using hb2
  have hw : (Result.VOIDED == Result.WON) = false := rfl
  have hl : (Result.VOIDED == Result.LOST) = false := rfl
  refine ⟨?_, ?_, ?_, ?_, ?_, ?_, ?_, ?_⟩
  · by_cases hd : v.game_date == d <;>
      simp [mkSummary, List.filter_cons, hd, hv, hw]
  · by_cases hd : v.game_date == d <;>
      simp [mkSummary, List.filter_cons, hd, hv, hl]
  · by_cases hd : v.game_date == d <;>
      simp [mkSummary, List.filter_cons, hd, hv, calculate_pnl]
  · simp [renderResultsTable, List.filter_cons, hbs1]
  · simp [renderResultsTable, List.filter_cons, hbs2]
  · simp [renderResultsTable, List.filter_cons, hbs1, hbs2]
  · simp [renderResultsTable, List.filter_cons, hbs1, hbs2]
  · simp only [calculatePeriodStats] at hpos ⊢
    rw [if_pos hpos]
    push_cast
    ring

/-- Witness for C6 at concrete values (a VOIDED bet on the summarised date,
a not-started live bet, and a one-day period record). -/
theorem voided_neutral_witness :
    ((⟨4, .VOIDED, 1⟩ : SBet).result = .VOIDED ∧
      (⟨none, some "not_started", none, none⟩ : LiveBet).status ≠ some "hit" ∧
      (⟨none, some "not_started", none, none⟩ : LiveBet).status ≠ some "miss" ∧
      0 < (calculatePeriodStats (fun _ => true)
            [⟨some 4, 1, 0, 1⟩] .all).total) ∧
    (mkSummary [⟨4, .VOIDED, 1⟩] 4 100).wins = (mkSummary [] 4 100).wins ∧
    (calculatePeriodStats (fun _ => true) [⟨some 4, 1, 0, 1⟩] .all).winRate
      = ((calculatePeriodStats (fun _ => true) [⟨some 4, 1, 0, 1⟩] .all).wins : ℚ)
        / (((calculatePeriodStats (fun _ => true) [⟨some 4, 1, 0, 1⟩] .all).wins : ℚ)
            + ((calculatePeriodStats (fun _ => true)
                [⟨some 4, 1, 0, 1⟩] .all).losses : ℚ)) * 100 := by
  have h := voided_neutral [] 4 100 ⟨4, .VOIDED, 1⟩ rfl
    ⟨none, some "not_started", none, none⟩ [] (by decide) (by decide)
    (fun _ => true) [⟨some 4, 1, 0, 1⟩] .all (by decide)
  exact ⟨⟨rfl, by decide, by decide, by decide⟩, h.1, h.2.2.2.2.2.2.2⟩

/-- Pushing a bet onto a group never changes the key list. -/
theorem pushToGroup_keys (acc : List (String × List LiveBet)) (k : String)
    (b : LiveBet) :
    (pushToGroup acc k b).map Prod.fst = acc.map Prod.fst := by
  simp only [pushToGroup, List.map_map]
  apply List.map_congr_left
  intro p _
  by_cases h : p.1 = k <;> simp [h]

/-- The grouping step pushes the bet onto the group of its assigned key. -/
theorem groupStep_eq (acc : List (String × List LiveBet)) (b : LiveBet) :
    groupStep acc b = pushToGroup acc (assignKey (acc.map Prod.fst) b) b := by
  unfold groupStep assignKey
  by_cases h : jsGameKey b ∈ acc.map Prod.fst
  · have ha : (acc.any (fun p => p.1 = jsGameKey b)) = true := by
      simp only [List.any_eq_true, decide_eq_true_eq]
      obtain ⟨p, hp, hpe⟩ := List.mem_map.mp h
      exact ⟨p, hp, hpe⟩
    rw [if_pos ha, if_pos h]
  · have ha : ¬(acc.any (fun p => p.1 = jsGameKey b)) = true := by
      simp only [List.any_eq_true, decide_eq_true_eq]
      rintro ⟨p, hp, hpe⟩
      exact h (List.mem_map.mpr ⟨p, hp, hpe⟩)
    rw [if_neg ha, if_neg h]

/-- Folding the grouping step appends, to each initial group, exactly the
bets whose assigned key is that group's key. -/
theorem foldl_groupStep (bets : List LiveBet)
    (acc : List (String × List LiveBet)) :
    bets.foldl groupStep acc
      = acc.map (fun p =>
          (p.1, p.2 ++ bets.filter
            (fun b => assignKey (acc.map Prod.fst) b == p.1))) := by
  induction bets generalizing acc with
  | nil => simp
  | cons b bs ih =>
    rw [List.foldl_cons, groupStep_eq, ih, pushToGroup_keys]
    simp only [pushToGroup, List.map_map]
    apply List.map_congr_left
    intro p hp
    by_cases hpk : p.1 = assignKey (acc.map Prod.fst) b
    · have hq : (assignKey (acc.map Prod.fst) b == p.1) = true := by
        simp [hpk]
      simp only [Function.comp, if_pos hpk, List.filter_cons, hq, if_pos]
      simp [hpk]
    · have hq : (assignKey (acc.map Prod.fst) b == p.1) = false := by
        simp [beq_eq_false_iff_ne]
        exact fun he => hpk he.symm
      simp only [Function.comp, if_neg hpk, List.filter_cons, hq]
      simp

/-- The keys reached by the game-key initialisation fold: the starting keys
together with the game names. -/
theorem foldl_addGameKey_mem (games : List GameInfo)
    (acc : List (String × List LiveBet)) (x : String) :
    x ∈ (games.foldl addGameKey acc).map Prod.fst
      ↔ x ∈ acc.map Prod.fst ∨ x ∈ games.map GameInfo.game := by
  induction games generalizing acc with
  | nil => simp
  | cons g gs ih =>
    rw [List.foldl_cons, ih]
    unfold addGameKey
    by_cases h : (acc.any (fun p => p.1 == g.game)) = true
    · have hg : g.game ∈ acc.map Prod.fst := by
        simp only [List.any_eq_true, beq_iff_eq] at h
        obtain ⟨p, hp, hpe⟩ := h
        exact List.mem_map.mpr ⟨p, hp, hpe⟩
      rw [if_pos h]
      simp only [List.map_cons, List.mem_cons]
      constructor
      · rintro (hx | hx)
        · exact Or.inl hx
        · exact Or.inr (Or.inr hx)
      · rintro (hx | rfl | hx)
        · exact Or.inl hx
        · exact Or.inl hg
        · exact Or.inr hx
    · rw [if_neg h]
      simp only [List.map_append, List.map_cons, List.map_nil,
        List.mem_append, List.mem_cons, List.mem_singleton]
      tauto

/-- The game-key initialisation fold keeps the key list duplicate-free. -/
theorem foldl_addGameKey_nodup (games : List GameInfo)
    (acc : List (String × List LiveBet))
    (ha : (acc.map Prod.fst).Nodup) :
    ((games.foldl addGameKey acc).map Prod.fst).Nodup := by
  induction games generalizing acc with
  | nil => exact ha
  | cons g gs ih =>
    rw [List.foldl_cons]
    apply ih
    unfold addGameKey
    by_cases h : (acc.any (fun p => p.1 == g.game)) = true
    · rwa [if_pos h]
    · rw [if_neg h]
      have hg : g.game ∉ acc.map Prod.fst := by
        intro hmem
        obtain ⟨p, hp, hpe⟩ := List.mem_map.mp hmem
        exact h (by simp only [List.any_eq_true, beq_iff_eq]; exact ⟨p, hp, hpe⟩)
      rw [List.map_append]
      exact List.nodup_append.mpr ⟨ha, List.nodup_singleton _,
        by simpa [List.disjoint_singleton] using hg⟩

/-- The game-key initialisation fold only creates empty groups. -/
theorem foldl_addGameKey_empty (games : List GameInfo)
    (acc : List (String × List LiveBet))
    (ha : ∀ p ∈ acc, p.2 = ([] : List LiveBet)) :
    ∀ p ∈ games.foldl addGameKey acc, p.2 = ([] : List LiveBet) := by
  induction games generalizing acc with
  | nil => exact ha
  | cons g gs ih =>
    rw [List.foldl_cons]
    apply ih
    unfold addGameKey
    by_cases h : (acc.any (fun p => p.1 == g.game)) = true
    · rwa [if_pos h]
    · rw [if_neg h]
      intro p hp
      rcases List.mem_append.mp hp with hp | hp
      · exact ha p hp
      · simp only [List.mem_singleton] at hp
        subst hp
        rfl

/-- The initial grouped object has duplicate-free keys. -/
theorem initGroups_nodup (games : List GameInfo) :
    ((initGroups games).map Prod.fst).Nodup := by
  unfold initGroups
  have hb : ((games.foldl addGameKey []).map Prod.fst).Nodup :=
    foldl_addGameKey_nodup games [] (by simp)
  by_cases h : ((games.foldl addGameKey []).any
      (fun p => p.1 == "Unmatched")) = true
  · rwa [if_pos h]
  · rw [if_neg h, List.map_append]
    have hg : "Unmatched" ∉ (games.foldl addGameKey []).map Prod.fst := by
      intro hmem
      obtain ⟨p, hp, hpe⟩ := List.mem_map.mp hmem
      exact h (by simp only [List.any_eq_true, beq_iff_eq]; exact ⟨p, hp, hpe⟩)
    exact List.nodup_append.mpr ⟨hb, List.nodup_singleton _,
      by simpa [List.disjoint_singleton] using hg⟩

/-- The initial grouped object always carries the `'Unmatched'` key. -/
theorem initGroups_unmatched (games : List GameInfo) :
    "Unmatched" ∈ (initGroups games).map Prod.fst := by
  unfold initGroups
  by_cases h : ((games.foldl addGameKey []).any
      (fun p => p.1 == "Unmatched")) = true
  · rw [if_pos h]
    simp only [List.any_eq_true, beq_iff_eq] at h
    obtain ⟨p, hp, hpe⟩ := h
    exact List.mem_map.mpr ⟨p, hp, hpe⟩
  · rw [if_neg h, List.map_append]
    simp

/-- Every game of the payload has a key in the initial grouped object. -/
theorem initGroups_gamekeys (games : List GameInfo) :
    ∀ g ∈ games, g.game ∈ (initGroups games).map Prod.fst := by
  intro g hg
  have hb : g.game ∈ (games.foldl addGameKey []).map Prod.fst := by
    rw [foldl_addGameKey_mem]
    exact Or.inr (List.mem_map.mpr ⟨g, hg, rfl⟩)
  unfold initGroups
  by_cases h : ((games.foldl addGameKey []).any
      (fun p => p.1 == "Unmatched")) = true
  · rwa [if_pos h]
  · rw [if_neg h, List.map_append]
    exact List.mem_append.mpr (Or.inl hb)

/-- All groups of the initial grouped object are empty. -/
theorem initGroups_empty (games : List GameInfo) :
    ∀ p ∈ initGroups games, p.2 = ([] : List LiveBet) := by
  unfold initGroups
  by_cases h : ((games.foldl addGameKey []).any
      (fun p => p.1 == "Unmatched")) = true
  · rw [if_pos h]
    exact foldl_addGameKey_empty games [] (by simp)
  · rw [if_neg h]
    intro p hp
    rcases List.mem_append.mp hp with hp | hp
    · exact foldl_addGameKey_empty games [] (by simp) p hp
    · simp only [List.mem_singleton] at hp
      subst hp
      rfl

/-- The final grouped object has the same keys as the initial one. -/
theorem groupBetsByGame_keys (bets : List LiveBet) (games : List GameInfo) :
    (groupBetsByGame bets games).map Prod.fst
      = (initGroups games).map Prod.fst := by
  unfold groupBetsByGame
  rw [foldl_groupStep, List.map_map]
  apply List.map_congr_left
  intro p _
  rfl

/-- C9: `groupBetsByGame` partitions the bets: the group keys are
duplicate-free and include `'Unmatched'` and every game of the games list;
each group holds exactly the bets assigned to its key — the bet's own game
key when that key is present (in particular when it is a game of the games
list), `'Unmatched'` when the bet's game is missing, empty or `'-'` — and
every input bet lands in exactly the group of its assigned key, so no bet is
dropped and none is duplicated across groups. -/
theorem groupBetsByGame_partition (bets : List LiveBet)
    (games : List GameInfo) :
    ((groupBetsByGame bets games).map Prod.fst).Nodup ∧
    "Unmatched" ∈ (groupBetsByGame bets games).map Prod.fst ∧
    (∀ g ∈ games, g.game ∈ (groupBetsByGame bets games).map Prod.fst) ∧
    (∀ b : LiveBet, assignKey ((groupBetsByGame bets games).map Prod.fst) b
      ∈ (groupBetsByGame bets games).map Prod.fst) ∧
    (∀ p ∈ groupBetsByGame bets games,
      p.2 = bets.filter (fun b =>
        assignKey ((groupBetsByGame bets games).map Prod.fst) b == p.1)) ∧
    (∀ b ∈ bets, ∃ p ∈ groupBetsByGame bets games,
      p.1 = assignKey ((groupBetsByGame bets games).map Prod.fst) b
        ∧ b ∈ p.2) ∧
    (∀ (b : LiveBet) (g : String), b.game = some g → ¬g = "" → ¬g = "-" →
      g ∈ (groupBetsByGame bets games).map Prod.fst →
      assignKey ((groupBetsByGame bets games).map Prod.fst) b = g) ∧
    (∀ b : LiveBet, b.game = none ∨ b.game = some "" ∨ b.game = some "-" →
      assignKey ((groupBetsByGame bets games).map Prod.fst) b
        = "Unmatched") := by
  have hkeys := groupBetsByGame_keys bets games
  have hnd : ((groupBetsByGame bets games).map Prod.fst).Nodup := by
    rw [hkeys]; exact initGroups_nodup games
  have hun : "Unmatched" ∈ (groupBetsByGame bets games).map Prod.fst := by
    rw [hkeys]; exact initGroups_unmatched games
  have hassign : ∀ b : LiveBet,
      assignKey ((groupBetsByGame bets games).map Prod.fst) b
        ∈ (groupBetsByGame bets games).map Prod.fst := by
    intro b
    unfold assignKey
    by_cases h : jsGameKey b ∈ (groupBetsByGame bets games).map Prod.fst
    · rwa [if_pos h]
    · rwa [if_neg h]
  have hchar : ∀ p ∈ groupBetsByGame bets games,
      p.2 = bets.filter (fun b =>
        assignKey ((groupBetsByGame bets games).map Prod.fst) b == p.1) := by
    intro p hp
    rw [hkeys]
    have hfold : groupBetsByGame bets games
        = (initGroups games).map (fun q =>
            (q.1, q.2 ++ bets.filter (fun b =>
              assignKey ((initGroups games).map Prod.fst) b == q.1))) := by
      unfold groupBetsByGame
      exact foldl_groupStep bets (initGroups games)
    rw [hfold] at hp
    obtain ⟨q, hq, hqe⟩ := List.mem_map.mp hp
    rw [← hqe]
    simp only
    rw [initGroups_empty games q hq, List.nil_append]
  refine ⟨hnd, hun, ?_, hassign, hchar, ?_, ?_, ?_⟩
  · intro g hg
    rw [hkeys]; exact initGroups_gamekeys games g hg
  · intro b hb
    obtain ⟨p, hp, hpe⟩ := List.mem_map.mp
      (hassign b)
    refine ⟨p, hp, hpe, ?_⟩
    rw [hchar p hp]
    exact List.mem_filter.mpr ⟨hb, by rw [hpe]; exact beq_self_eq_true _⟩
  · intro b g hbg hg1 hg2 hmem
    unfold assignKey
    have : jsGameKey b = g := by
      simp [jsGameKey, hbg, hg1, hg2]
    rw [this, if_pos hmem]
  · intro b hb
    have : jsGameKey b = "Unmatched" := by
      rcases hb with hb | hb | hb <;> simp [jsGameKey, hb]
    rw [assignKey, this]
    split_ifs <;> rfl

/-- Witness for C9 on one game with one matched and one unmatched bet. -/
theorem groupBetsByGame_partition_witness :
    ((⟨some "LAL @ BOS", some "hit", some "Live", some 10⟩ : LiveBet)
        ∈ [(⟨some "LAL @ BOS", some "hit", some "Live", some 10⟩ : LiveBet),
           ⟨none, none, none, none⟩] ∧
      (⟨"LAL @ BOS", some "Live"⟩ : GameInfo)
        ∈ [(⟨"LAL @ BOS", some "Live"⟩ : GameInfo)]) ∧
    ((groupBetsByGame
        [⟨some "LAL @ BOS", some "hit", some "Live", some 10⟩,
         ⟨none, none, none, none⟩]
        [⟨"LAL @ BOS", some "Live"⟩]).map Prod.fst).Nodup ∧
    (⟨"LAL @ BOS", some "Live"⟩ : GameInfo).game
      ∈ (groupBetsByGame
          [⟨some "LAL @ BOS", some "hit", some "Live", some 10⟩,
           ⟨none, none, none, none⟩]
          [⟨"LAL @ BOS", some "Live"⟩]).map Prod.fst ∧
    ∃ p ∈ groupBetsByGame
        [⟨some "LAL @ BOS", some "hit", some "Live", some 10⟩,
         ⟨none, none, none, none⟩]
        [⟨"LAL @ BOS", some "Live"⟩],
      p.1 = assignKey ((groupBetsByGame
          [⟨some "LAL @ BOS", some "hit", some "Live", some 10⟩,
           ⟨none, none, none, none⟩]
          [⟨"LAL @ BOS", some "Live"⟩]).map Prod.fst)
          ⟨some "LAL @ BOS", some "hit", some "Live", some 10⟩
        ∧ (⟨some "LAL @ BOS", some "hit", some "Live", some 10⟩ : LiveBet)
            ∈ p.2 := by
  have h := groupBetsByGame_partition
    [⟨some "LAL @ BOS", some "hit", some "Live", some 10⟩,
     ⟨none, none, none, none⟩]
    [⟨"LAL @ BOS", some "Live"⟩]
  exact ⟨⟨by decide, by decide⟩, h.1,
    h.2.2.1 ⟨"LAL @ BOS", some "Live"⟩ (by decide),
    h.2.2.2.2.2.1 ⟨some "LAL @ BOS", some "hit", some "Live", some 10⟩
      (by decide)⟩

end PraPnl
